import Mathlib

/-!
Verification development for the event-scheduling core of the pymt
repository: the `EventManager` lifecycle orchestrator
(src/cmt/events/manager.py) together with the `Timeline` collaborator it
drives.  The manager is embedded shallowly: Python object state becomes an
explicit record, every call into an event's lifecycle operation is recorded
in a trace, and a raised Python exception becomes an explicit error value
threaded through the result (the mutations performed before the raise are
kept, exactly as the surviving Python object keeps them).

Events are external collaborators: the manager only ever calls their
`initialize` / `run` / `update` / `finalize` operations.  An event is
therefore modelled by its identity plus its observable behaviour at each
operation (whether the operation exists, whether it fails).  The Python
dispatch `try: event.run(t) except AttributeError: event.update(t)` probes
for the run capability; here that capability is the `hasRun` field, and an
event failure inside a present operation is the contract's RunError or
UpdateError, which is not an AttributeError and hence propagates.
-/

/-- One recorded invocation of an event's lifecycle operation.  The time
argument of `run` and `update` is the timeline clock value passed by the
manager. -/
inductive Call : Type where
  | initCall : Nat → Call
  | runCall : Nat → Nat → Call
  | updateCall : Nat → Nat → Call
  | finalCall : Nat → Call
deriving DecidableEq

/-- A Python exception escaping a lifecycle pass, tagged with the failing
event's identity (the manager reports the failing event and re-raises). -/
inductive Err : Type where
  | initError : Nat → Err
  | dispatchError : Nat → Err
  | finalError : Nat → Err
deriving DecidableEq

/-- An external event as the manager observes it: an identity and the
behaviour of each lifecycle operation.  `hasRun` states whether the event
exposes a `run` operation (otherwise dispatch falls back to `update`);
the three failure flags state whether the corresponding operation raises
when invoked. -/
structure Event : Type where
  eid : Nat
  initFails : Bool
  dispatchFails : Bool
  finalFails : Bool
  hasRun : Bool
deriving DecidableEq

/-- Modelled from the spec: the Timeline collaborator (src imports it from
cmt.timeline, which is not part of the inspected sources).  It owns the
simulated clock and a schedule mapping each tracked event to its next fire
time and recurrence interval, kept in registration order. -/
structure Timeline : Type where
  time : Nat
  schedule : List (Event × Nat × Nat)
deriving DecidableEq

/-- Modelled from the spec: Timeline.add_recurring_event — the event's
first fire time is computed relative to the timeline's current clock, so
an event registered when the clock reads t first fires at t + interval. -/
def Timeline.addRecurring (tl : Timeline) (e : Event) (interval : Nat) :
    Timeline :=
  { tl with schedule := tl.schedule ++ [(e, tl.time + interval, interval)] }

/-- Modelled from the spec: the Timeline constructor registers every
(event, interval) pair of the initial list, starting from clock 0. -/
def Timeline.create (events : List (Event × Nat)) : Timeline :=
  events.foldl (fun tl p => tl.addRecurring p.1 p.2) ⟨0, []⟩

/-- Modelled from the spec: select the scheduled entry with the smallest
next fire time, breaking ties by registration order (the earliest entry
wins).  Returns the index into the schedule and that fire time. -/
def pickMin : List (Event × Nat × Nat) → Nat → Option (Nat × Nat)
  | [], _ => none
  | p :: rest, i =>
    match pickMin rest (i + 1) with
    | none => some (i, p.2.1)
    | some (j, f) => if p.2.1 ≤ f then some (i, p.2.1) else some (j, f)

/-- Bump the schedule entry at index `i` to its next recurrence:
its next fire time grows by exactly its interval (no drift). -/
def bumpAt : List (Event × Nat × Nat) → Nat → List (Event × Nat × Nat)
  | [], _ => []
  | p :: rest, 0 => (p.1, p.2.1 + p.2.2, p.2.2) :: rest
  | p :: rest, i + 1 => p :: bumpAt rest i

/-- Modelled from the spec: one step of Timeline.iter_until.  If some
tracked event's next fire time is ≤ stop, advance the clock to the
earliest such fire time (registration order breaking ties), reschedule
that event at fire time + interval, and yield it; otherwise the iterator
is exhausted. -/
def Timeline.nextDue (tl : Timeline) (stop : Nat) :
    Option (Event × Timeline) :=
  match pickMin tl.schedule 0 with
  | none => none
  | some (i, f) =>
    if f ≤ stop then
      match tl.schedule[i]? with
      | none => none
      | some p => some (p.1, ⟨f, bumpAt tl.schedule i⟩)
    else none

/-- Modelled from the spec: the full due-event sequence of
Timeline.iter_until(stop), paired with the clock value at which each
event fires, plus the timeline state after exhaustion.  `fuel` bounds the
number of steps; every claim is settled at a fuel large enough to exhaust
the sequence. -/
def iterUntil : Nat → Timeline → Nat → List (Event × Nat) × Timeline
  | 0, tl, _ => ([], tl)
  | fuel + 1, tl, stop =>
    match tl.nextDue stop with
    | none => ([], tl)
    | some (e, tl2) =>
      let r := iterUntil fuel tl2 stop
      ((e, tl2.time) :: r.1, r.2)

/-- The manager's state: the timeline, the four lifecycle flags, and the
registration-order list of (event, interval) pairs — a direct embedding
of EventManager.__init__'s fields. -/
structure EventManager : Type where
  timeline : Timeline
  initializing : Bool
  initialized : Bool
  running : Bool
  finalizing : Bool
  order : List (Event × Nat)
deriving DecidableEq

/-- EventManager(events): build the timeline from the events and store
the registration list; all four flags start false. -/
def EventManager.create (events : List (Event × Nat)) : EventManager :=
  ⟨Timeline.create events, false, false, false, false, events⟩

/-- The observable result of one manager method call: the trace of event
operations invoked, the manager state afterwards (mutations before a
raise persist), and the escaping exception if one was raised. -/
structure Outcome : Type where
  log : List Call
  state : EventManager
  err : Option Err
deriving DecidableEq

/-- The loop body of initialize(): walk the registration list in order,
invoking each event's initialize operation; a raise aborts the walk
(the failing invocation did happen and is recorded). -/
def initLoop : List (Event × Nat) → List Call × Option Err
  | [] => ([], none)
  | (e, _) :: rest =>
    if e.initFails then ([Call.initCall e.eid], some (Err.initError e.eid))
    else
      let r := initLoop rest
      (Call.initCall e.eid :: r.1, r.2)

/-- EventManager.initialize(): a no-op when the initializing flag is
already set; otherwise set it, walk the registration list in order, and
set the initialized flag only after the full walk succeeds — an error
propagates with the initializing flag left set and initialized unset. -/
def initializeE (s : EventManager) : Outcome :=
  if s.initializing then ⟨[], s, none⟩
  else
    let s1 := { s with initializing := true }
    let r := initLoop s.order
    match r.2 with
    | some e => ⟨r.1, s1, some e⟩
    | none => ⟨r.1, { s1 with initialized := true }, none⟩

/-- Dispatch of one due event at timeline time `t`: attempt the run
operation; when the event lacks that capability (the AttributeError
branch of the source) fall back to the update operation.  Exactly one
operation is invoked; a failure inside the invoked operation raises. -/
def dispatchOne (e : Event) (t : Nat) : List Call × Option Err :=
  if e.hasRun then
    ([Call.runCall e.eid t],
      if e.dispatchFails then some (Err.dispatchError e.eid) else none)
  else
    ([Call.updateCall e.eid t],
      if e.dispatchFails then some (Err.dispatchError e.eid) else none)

/-- The dispatch loop of run(stop_time): pull due events one at a time
from the lazy timeline iterator (each pull advances the clock to the
fire time) and dispatch each at the timeline's current time; a raised
dispatch error abandons the iterator, leaving the clock where the
failing event fired. -/
def runLoop : Nat → Timeline → Nat → List Call × Timeline × Option Err
  | 0, tl, _ => ([], tl, none)
  | fuel + 1, tl, stop =>
    match tl.nextDue stop with
    | none => ([], tl, none)
    | some (e, tl2) =>
      let d := dispatchOne e tl2.time
      match d.2 with
      | some er => (d.1, tl2, some er)
      | none =>
        let r := runLoop fuel tl2 stop
        (d.1 ++ r.1, r.2.1, r.2.2)

/-- EventManager.run(stop_time): first call initialize(); then, unless
the running flag is already set, set it and dispatch every due event up
to stop_time.  The source clears the running flag by a plain assignment
after the loop, not in a finally block: a dispatch error skips that
assignment, so the flag stays set on an erroring exit. -/
def runE (fuel : Nat) (s : EventManager) (stop : Nat) : Outcome :=
  let o := initializeE s
  match o.err with
  | some e => ⟨o.log, o.state, some e⟩
  | none =>
    if o.state.running then ⟨o.log, o.state, none⟩
    else
      let s2 := { o.state with running := true }
      let r := runLoop fuel s2.timeline stop
      match r.2.2 with
      | some e => ⟨o.log ++ r.1, { s2 with timeline := r.2.1 }, some e⟩
      | none =>
        ⟨o.log ++ r.1,
          { s2 with timeline := r.2.1, running := false }, none⟩

/-- The loop body of finalize(): walk the given (already reversed) list,
invoking each event's finalize operation with no failure suppression;
a raise aborts the walk (the failing invocation is recorded). -/
def finLoop : List (Event × Nat) → List Call × Option Err
  | [] => ([], none)
  | (e, _) :: rest =>
    if e.finalFails then
      ([Call.finalCall e.eid], some (Err.finalError e.eid))
    else
      let r := finLoop rest
      (Call.finalCall e.eid :: r.1, r.2)

/-- EventManager.finalize(): a no-op unless the initialized flag is set.
When it is set: if the finalizing flag is not yet set, set it and walk
the registration list in reverse, invoking each event's finalize
operation (an error propagates and skips the rest, including the flag
clearing below).  The source clears the initialized flag outside the
finalizing-guard conditional, so a call that skips the walk because the
finalizing flag was already set still clears the initialized flag. -/
def finalizeE (s : EventManager) : Outcome :=
  if s.initialized then
    if s.finalizing then ⟨[], { s with initialized := false }, none⟩
    else
      let s1 := { s with finalizing := true }
      let r := finLoop s.order.reverse
      match r.2 with
      | some e => ⟨r.1, s1, some e⟩
      | none => ⟨r.1, { s1 with initialized := false }, none⟩
  else ⟨[], s, none⟩

/-- EventManager.add_recurring_event(event, interval): forward to the
timeline's registration and append the pair to the registration list. -/
def addRecurringEvent (s : EventManager) (e : Event) (interval : Nat) :
    EventManager :=
  { s with timeline := s.timeline.addRecurring e interval,
           order := s.order ++ [(e, interval)] }

/-- A configuration source, per the consumed contract: ordered sections,
each a name with a string-keyed value mapping.  Section order is the
insertion order of the underlying configuration. -/
structure Config : Type where
  sections : List (String × List (String × String))
deriving DecidableEq

/-- Look up one key in one section of the configuration (the core reads
only the key "interval" of each matched section). -/
def Config.get (cfg : Config) (name key : String) : Option String :=
  match cfg.sections.find? (fun sec => sec.1 = name) with
  | none => none
  | some sec =>
    match sec.2.find? (fun kv => kv.1 = key) with
    | none => none
    | some kv => some kv.2

/-- Modelled from the spec: names_with_prefix (imported from
cmt.utils, not part of the inspected sources) — extract, in order, the
section names matching the given name filter. -/
def namesWithPre (names : List String) (pre : String) : List String :=
  names.filter (fun n => pre.toList.isPrefixOf n.toList)

/-- The loop body of EventManager._from_config: for each matching section
name, append the (name, section's interval value) pair to the events
list; a missing interval key raises (modelled as `none`). -/
def fromConfigLoop (cfg : Config) : List String →
    List (String × String) → Option (List (String × String))
  | [], acc => some acc
  | name :: rest, acc =>
    match cfg.get name "interval" with
    | none => none
    | some v => fromConfigLoop cfg rest (acc ++ [(name, v)])

/-- EventManager._from_config(config, prefix): filter the section names,
read each matched section's interval, and build the registration list
handed to the constructor, in section order.  This is the list the
from_string / from_path construction path is intended to produce, but in
the shipped manager.py that path never reaches _from_config: both
constructors raise NameError on their first statement (see
fromStringShipped / fromPathShipped below). -/
def fromConfigEvents (cfg : Config) (pre : String) :
    Option (List (String × String)) :=
  fromConfigLoop cfg (namesWithPre (cfg.sections.map (fun s => s.1)) pre) []

/-- EventManager.from_string(source, prefix) as shipped: the body's
first statement, config = ConfigParser(), evaluates the global name
ConfigParser, but manager.py imports only Timeline and the prefix
helpers — neither ConfigParser nor StringIO is ever imported — so the
name lookup fails and every call raises NameError before the source is
read or _from_config is reached.  The arguments are never consulted. -/
def fromStringShipped (_source _pre : String) :
    Except String (List (String × String)) :=
  Except.error "NameError: ConfigParser"

/-- EventManager.from_path(path, prefix) as shipped: identical failure —
its first statement is also config = ConfigParser(), so every call
raises NameError before the path is opened. -/
def fromPathShipped (_path _pre : String) :
    Except String (List (String × String)) :=
  Except.error "NameError: ConfigParser"

/-- The single call emitted when a due event is dispatched: the run
operation when the event has that capability, otherwise update. -/
def dCall (e : Event) (t : Nat) : Call :=
  if e.hasRun then Call.runCall e.eid t else Call.updateCall e.eid t

theorem initLoop_ok (L : List (Event × Nat))
    (h : ∀ p ∈ L, p.1.initFails = false) :
    initLoop L = (L.map (fun p => Call.initCall p.1.eid), none) := by
  induction L with
  | nil => rfl
  | cons p rest ih =>
    obtain ⟨e, iv⟩ := p
    have he : e.initFails = false := h (e, iv) (by simp)
    have hr : ∀ q ∈ rest, q.1.initFails = false := fun q hq => h q (by simp [hq])
    simp [initLoop, he, ih hr]

theorem initLoop_fail (A B : List (Event × Nat)) (e : Event) (iv : Nat)
    (hA : ∀ p ∈ A, p.1.initFails = false) (he : e.initFails = true) :
    initLoop (A ++ (e, iv) :: B) =
      (A.map (fun p => Call.initCall p.1.eid) ++ [Call.initCall e.eid],
        some (Err.initError e.eid)) := by
  induction A with
  | nil => simp [initLoop, he]
  | cons p rest ih =>
    obtain ⟨e2, iv2⟩ := p
    have h2 : e2.initFails = false := hA (e2, iv2) (by simp)
    have hr : ∀ q ∈ rest, q.1.initFails = false := fun q hq => hA q (by simp [hq])
    simp [initLoop, h2, ih hr]

theorem finLoop_ok (L : List (Event × Nat))
    (h : ∀ p ∈ L, p.1.finalFails = false) :
    finLoop L = (L.map (fun p => Call.finalCall p.1.eid), none) := by
  induction L with
  | nil => rfl
  | cons p rest ih =>
    obtain ⟨e, iv⟩ := p
    have he : e.finalFails = false := h (e, iv) (by simp)
    have hr : ∀ q ∈ rest, q.1.finalFails = false := fun q hq => h q (by simp [hq])
    simp [finLoop, he, ih hr]

theorem finLoop_fail (A B : List (Event × Nat)) (e : Event) (iv : Nat)
    (hA : ∀ p ∈ A, p.1.finalFails = false) (he : e.finalFails = true) :
    finLoop (A ++ (e, iv) :: B) =
      (A.map (fun p => Call.finalCall p.1.eid) ++ [Call.finalCall e.eid],
        some (Err.finalError e.eid)) := by
  induction A with
  | nil => simp [finLoop, he]
  | cons p rest ih =>
    obtain ⟨e2, iv2⟩ := p
    have h2 : e2.finalFails = false := hA (e2, iv2) (by simp)
    have hr : ∀ q ∈ rest, q.1.finalFails = false := fun q hq => hA q (by simp [hq])
    simp [finLoop, h2, ih hr]

theorem initializeE_preserves (s : EventManager) :
    (initializeE s).state.timeline = s.timeline ∧
    (initializeE s).state.running = s.running ∧
    (initializeE s).state.order = s.order ∧
    (initializeE s).state.finalizing = s.finalizing := by
  by_cases h : s.initializing = true
  · simp [initializeE, h]
  · simp only [Bool.not_eq_true] at h
    simp only [initializeE, h, Bool.false_eq_true, if_false]
    cases hr : (initLoop s.order).2 <;> simp

theorem initializeE_noop (s : EventManager) (h : s.initializing = true) :
    initializeE s = ⟨[], s, none⟩ := by
  simp [initializeE, h]

/-- C1.  For every registration list L with no failing event,
initialize() on a freshly constructed manager invokes each event's
initialize operation exactly once, in the exact registration order of L
(the trace is precisely the in-order list of initialize invocations), no
error escapes, and afterwards both the initializing and initialized
flags are set. -/
theorem c1_initialize_in_order (L : List (Event × Nat))
    (h : ∀ p ∈ L, p.1.initFails = false) :
    (initializeE (EventManager.create L)).log =
        L.map (fun p => Call.initCall p.1.eid) ∧
      (initializeE (EventManager.create L)).err = none ∧
      (initializeE (EventManager.create L)).state.initializing = true ∧
      (initializeE (EventManager.create L)).state.initialized = true := by
  simp [initializeE, EventManager.create, initLoop_ok L h]

theorem c1_witness :
    (∀ p ∈ [((⟨1, false, false, false, true⟩ : Event), 2),
            ((⟨2, false, false, false, false⟩ : Event), 3)],
        p.1.initFails = false) ∧
      ((initializeE (EventManager.create
          [((⟨1, false, false, false, true⟩ : Event), 2),
           ((⟨2, false, false, false, false⟩ : Event), 3)])).log =
        [((⟨1, false, false, false, true⟩ : Event), 2),
         ((⟨2, false, false, false, false⟩ : Event), 3)].map
          (fun p => Call.initCall p.1.eid) ∧
      (initializeE (EventManager.create
          [((⟨1, false, false, false, true⟩ : Event), 2),
           ((⟨2, false, false, false, false⟩ : Event), 3)])).err = none ∧
      (initializeE (EventManager.create
          [((⟨1, false, false, false, true⟩ : Event), 2),
           ((⟨2, false, false, false, false⟩ : Event), 3)])).state.initializing
          = true ∧
      (initializeE (EventManager.create
          [((⟨1, false, false, false, true⟩ : Event), 2),
           ((⟨2, false, false, false, false⟩ : Event), 3)])).state.initialized
          = true) :=
  ⟨by decide, c1_initialize_in_order _ (by decide)⟩

theorem initializeE_create_ok (L : List (Event × Nat))
    (h : ∀ p ∈ L, p.1.initFails = false) :
    initializeE (EventManager.create L) =
      ⟨L.map (fun p => Call.initCall p.1.eid),
        ⟨Timeline.create L, true, true, false, false, L⟩, none⟩ := by
  simp [initializeE, EventManager.create, initLoop_ok L h]

theorem finalizeE_after_ok (tl : Timeline) (L : List (Event × Nat))
    (hF : ∀ p ∈ L, p.1.finalFails = false) :
    finalizeE ⟨tl, true, true, false, false, L⟩ =
      ⟨L.reverse.map (fun p => Call.finalCall p.1.eid),
        ⟨tl, true, false, false, true, L⟩, none⟩ := by
  have hrev : ∀ p ∈ L.reverse, p.1.finalFails = false := fun p hp =>
    hF p (List.mem_reverse.mp hp)
  simp [finalizeE, finLoop_ok L.reverse hrev]

/-- C2.  After a successful initialize() on a freshly constructed
manager, finalize() invokes each event's finalize operation exactly once,
in exactly the reverse of registration order, and clears the initialized
flag on completion; and on any manager whose initialized flag is not set,
finalize() invokes nothing and changes nothing. -/
theorem c2_finalize_reverse (L : List (Event × Nat))
    (hI : ∀ p ∈ L, p.1.initFails = false)
    (hF : ∀ p ∈ L, p.1.finalFails = false) :
    (finalizeE (initializeE (EventManager.create L)).state).log =
        L.reverse.map (fun p => Call.finalCall p.1.eid) ∧
      (finalizeE (initializeE (EventManager.create L)).state).err = none ∧
      (finalizeE (initializeE (EventManager.create L)).state).state.initialized
        = false ∧
      (∀ s : EventManager, s.initialized = false →
        finalizeE s = ⟨[], s, none⟩) := by
  rw [initializeE_create_ok L hI]
  refine ⟨?_, ?_, ?_, ?_⟩
  · simp [finalizeE_after_ok (Timeline.create L) L hF]
  · simp [finalizeE_after_ok (Timeline.create L) L hF]
  · simp [finalizeE_after_ok (Timeline.create L) L hF]
  · intro s hs
    simp [finalizeE, hs]

theorem c2_witness :
    (∀ p ∈ [((⟨1, false, false, false, true⟩ : Event), 2),
            ((⟨2, false, false, false, false⟩ : Event), 3)],
        p.1.initFails = false) ∧
    (∀ p ∈ [((⟨1, false, false, false, true⟩ : Event), 2),
            ((⟨2, false, false, false, false⟩ : Event), 3)],
        p.1.finalFails = false) ∧
    ((finalizeE (initializeE (EventManager.create
          [((⟨1, false, false, false, true⟩ : Event), 2),
           ((⟨2, false, false, false, false⟩ : Event), 3)])).state).log =
        [((⟨1, false, false, false, true⟩ : Event), 2),
         ((⟨2, false, false, false, false⟩ : Event), 3)].reverse.map
          (fun p => Call.finalCall p.1.eid) ∧
      (finalizeE (initializeE (EventManager.create
          [((⟨1, false, false, false, true⟩ : Event), 2),
           ((⟨2, false, false, false, false⟩ : Event), 3)])).state).err
        = none ∧
      (finalizeE (initializeE (EventManager.create
          [((⟨1, false, false, false, true⟩ : Event), 2),
           ((⟨2, false, false, false, false⟩ : Event), 3)])).state).state.initialized
        = false ∧
      (∀ s : EventManager, s.initialized = false →
        finalizeE s = ⟨[], s, none⟩)) :=
  ⟨by decide, by decide, c2_finalize_reverse _ (by decide) (by decide)⟩

/-- C4.  If the failing event sits at position k of the registration
list (the list is A ++ (e, iv) :: B with A the k events before it, all
succeeding), then initialize() invokes the initialize operations of
exactly the events of A, in order, followed by the failing invocation of
e; the events of B are never invoked; the escaping error identifies e;
and afterwards the initializing flag is set while the initialized flag
is false, so a retried initialize() is a no-op. -/
theorem c4_initialize_failure (A B : List (Event × Nat)) (e : Event)
    (iv : Nat) (hA : ∀ p ∈ A, p.1.initFails = false)
    (he : e.initFails = true) :
    (initializeE (EventManager.create (A ++ (e, iv) :: B))).log =
        A.map (fun p => Call.initCall p.1.eid) ++ [Call.initCall e.eid] ∧
      (initializeE (EventManager.create (A ++ (e, iv) :: B))).err =
        some (Err.initError e.eid) ∧
      (initializeE (EventManager.create (A ++ (e, iv) :: B))).state.initializing
        = true ∧
      (initializeE (EventManager.create (A ++ (e, iv) :: B))).state.initialized
        = false ∧
      initializeE (initializeE (EventManager.create (A ++ (e, iv) :: B))).state
        = ⟨[], (initializeE (EventManager.create (A ++ (e, iv) :: B))).state,
            none⟩ := by
  have key : initializeE (EventManager.create (A ++ (e, iv) :: B)) =
      ⟨A.map (fun p => Call.initCall p.1.eid) ++ [Call.initCall e.eid],
        ⟨Timeline.create (A ++ (e, iv) :: B), true, false, false, false,
          A ++ (e, iv) :: B⟩,
        some (Err.initError e.eid)⟩ := by
    simp [initializeE, EventManager.create, initLoop_fail A B e iv hA he]
  rw [key]
  exact ⟨rfl, rfl, rfl, rfl, initializeE_noop _ rfl⟩

theorem c4_witness :
    (∀ p ∈ [((⟨1, false, false, false, true⟩ : Event), 2)],
        p.1.initFails = false) ∧
    (⟨3, true, false, false, true⟩ : Event).initFails = true ∧
    ((initializeE (EventManager.create
        ([((⟨1, false, false, false, true⟩ : Event), 2)] ++
          ((⟨3, true, false, false, true⟩ : Event), 7) ::
            [((⟨2, false, false, false, false⟩ : Event), 3)]))).log =
      [((⟨1, false, false, false, true⟩ : Event), 2)].map
          (fun p => Call.initCall p.1.eid) ++ [Call.initCall 3] ∧
      (initializeE (EventManager.create
        ([((⟨1, false, false, false, true⟩ : Event), 2)] ++
          ((⟨3, true, false, false, true⟩ : Event), 7) ::
            [((⟨2, false, false, false, false⟩ : Event), 3)]))).err =
        some (Err.initError 3) ∧
      (initializeE (EventManager.create
        ([((⟨1, false, false, false, true⟩ : Event), 2)] ++
          ((⟨3, true, false, false, true⟩ : Event), 7) ::
            [((⟨2, false, false, false, false⟩ : Event), 3)]))).state.initializing
        = true ∧
      (initializeE (EventManager.create
        ([((⟨1, false, false, false, true⟩ : Event), 2)] ++
          ((⟨3, true, false, false, true⟩ : Event), 7) ::
            [((⟨2, false, false, false, false⟩ : Event), 3)]))).state.initialized
        = false ∧
      initializeE (initializeE (EventManager.create
        ([((⟨1, false, false, false, true⟩ : Event), 2)] ++
          ((⟨3, true, false, false, true⟩ : Event), 7) ::
            [((⟨2, false, false, false, false⟩ : Event), 3)]))).state
        = ⟨[], (initializeE (EventManager.create
            ([((⟨1, false, false, false, true⟩ : Event), 2)] ++
              ((⟨3, true, false, false, true⟩ : Event), 7) ::
                [((⟨2, false, false, false, false⟩ : Event), 3)]))).state,
            none⟩) :=
  ⟨by decide, by decide, c4_initialize_failure _ _ _ _ (by decide) (by decide)⟩

/-- C7.  On a fresh manager with no failing event: two consecutive
initialize() calls invoke each event's initialize operation exactly once
in total (the second call invokes nothing and changes nothing), and two
consecutive finalize() calls after the successful initialize invoke each
event's finalize operation exactly once in total (the second call
invokes nothing). -/
theorem c7_idempotent (L : List (Event × Nat))
    (hI : ∀ p ∈ L, p.1.initFails = false)
    (hF : ∀ p ∈ L, p.1.finalFails = false) :
    (initializeE (EventManager.create L)).log =
        L.map (fun p => Call.initCall p.1.eid) ∧
      initializeE (initializeE (EventManager.create L)).state =
        ⟨[], (initializeE (EventManager.create L)).state, none⟩ ∧
      (finalizeE (initializeE (EventManager.create L)).state).log =
        L.reverse.map (fun p => Call.finalCall p.1.eid) ∧
      (finalizeE (finalizeE (initializeE (EventManager.create L)).state).state).log
        = [] ∧
      (finalizeE (finalizeE (initializeE (EventManager.create L)).state).state).state
        = (finalizeE (initializeE (EventManager.create L)).state).state := by
  have hstate : (initializeE (EventManager.create L)).state =
      ⟨Timeline.create L, true, true, false, false, L⟩ := by
    rw [initializeE_create_ok L hI]
  have hfin : finalizeE (initializeE (EventManager.create L)).state =
      ⟨L.reverse.map (fun p => Call.finalCall p.1.eid),
        ⟨Timeline.create L, true, false, false, true, L⟩, none⟩ := by
    rw [hstate, finalizeE_after_ok (Timeline.create L) L hF]
  have hfinstate :
      (finalizeE (initializeE (EventManager.create L)).state).state =
        ⟨Timeline.create L, true, false, false, true, L⟩ := by
    rw [hfin]
  refine ⟨by rw [initializeE_create_ok L hI], ?_, by rw [hfin], ?_, ?_⟩
  · rw [hstate]
    exact initializeE_noop _ rfl
  · rw [hfinstate]
    simp [finalizeE]
  · rw [hfinstate]
    simp [finalizeE]

theorem c7_witness :
    (∀ p ∈ [((⟨1, false, false, false, true⟩ : Event), 2),
            ((⟨2, false, false, false, false⟩ : Event), 3)],
        p.1.initFails = false) ∧
    (∀ p ∈ [((⟨1, false, false, false, true⟩ : Event), 2),
            ((⟨2, false, false, false, false⟩ : Event), 3)],
        p.1.finalFails = false) ∧
    ((initializeE (EventManager.create
        [((⟨1, false, false, false, true⟩ : Event), 2),
         ((⟨2, false, false, false, false⟩ : Event), 3)])).log =
      [((⟨1, false, false, false, true⟩ : Event), 2),
       ((⟨2, false, false, false, false⟩ : Event), 3)].map
        (fun p => Call.initCall p.1.eid) ∧
      initializeE (initializeE (EventManager.create
        [((⟨1, false, false, false, true⟩ : Event), 2),
         ((⟨2, false, false, false, false⟩ : Event), 3)])).state =
        ⟨[], (initializeE (EventManager.create
          [((⟨1, false, false, false, true⟩ : Event), 2),
           ((⟨2, false, false, false, false⟩ : Event), 3)])).state, none⟩ ∧
      (finalizeE (initializeE (EventManager.create
        [((⟨1, false, false, false, true⟩ : Event), 2),
         ((⟨2, false, false, false, false⟩ : Event), 3)])).state).log =
        [((⟨1, false, false, false, true⟩ : Event), 2),
         ((⟨2, false, false, false, false⟩ : Event), 3)].reverse.map
          (fun p => Call.finalCall p.1.eid) ∧
      (finalizeE (finalizeE (initializeE (EventManager.create
        [((⟨1, false, false, false, true⟩ : Event), 2),
         ((⟨2, false, false, false, false⟩ : Event), 3)])).state).state).log
        = [] ∧
      (finalizeE (finalizeE (initializeE (EventManager.create
        [((⟨1, false, false, false, true⟩ : Event), 2),
         ((⟨2, false, false, false, false⟩ : Event), 3)])).state).state).state
        = (finalizeE (initializeE (EventManager.create
          [((⟨1, false, false, false, true⟩ : Event), 2),
           ((⟨2, false, false, false, false⟩ : Event), 3)])).state).state) :=
  ⟨by decide, by decide, c7_idempotent _ (by decide) (by decide)⟩

/-- C8.  On an initialized manager (finalizing not yet set) whose
reverse registration walk is A ++ (e, iv) :: B with the events of A
finalizing cleanly and e's finalize operation failing: finalize()
invokes exactly the finalize operations of A, in reverse-walk order,
then the failing invocation of e; the error identifying e propagates;
the events of B — earlier in registration order, later in the reverse
walk — are never finalized; and the initialized flag remains set after
the failed call (it is only cleared after the full reverse walk), with
the finalizing flag left set. -/
theorem c8_finalize_failure (s : EventManager) (A B : List (Event × Nat))
    (e : Event) (iv : Nat) (hinit : s.initialized = true)
    (hfin : s.finalizing = false)
    (hord : s.order.reverse = A ++ (e, iv) :: B)
    (hA : ∀ p ∈ A, p.1.finalFails = false) (he : e.finalFails = true) :
    (finalizeE s).err = some (Err.finalError e.eid) ∧
      (finalizeE s).log =
        A.map (fun p => Call.finalCall p.1.eid) ++ [Call.finalCall e.eid] ∧
      (finalizeE s).state.initialized = true ∧
      (finalizeE s).state.finalizing = true := by
  have key : finalizeE s =
      ⟨A.map (fun p => Call.finalCall p.1.eid) ++ [Call.finalCall e.eid],
        { s with finalizing := true }, some (Err.finalError e.eid)⟩ := by
    simp [finalizeE, hinit, hfin, hord, finLoop_fail A B e iv hA he]
  rw [key]
  exact ⟨rfl, rfl, hinit, rfl⟩

def okEvent3 : Event := ⟨3, false, false, false, true⟩

def finFailEvent2 : Event := ⟨2, false, false, true, false⟩

def finFailEvent1 : Event := ⟨1, false, false, true, true⟩

def c8list : List (Event × Nat) :=
  [(finFailEvent1, 2), (finFailEvent2, 3), (okEvent3, 5)]

def c8mgr : EventManager :=
  ⟨Timeline.create c8list, true, true, false, false, c8list⟩

theorem c8_witness :
    c8mgr.initialized = true ∧
    c8mgr.finalizing = false ∧
    c8mgr.order.reverse =
      [(okEvent3, 5)] ++ (finFailEvent2, 3) :: [(finFailEvent1, 2)] ∧
    ((finalizeE c8mgr).err = some (Err.finalError finFailEvent2.eid) ∧
      (finalizeE c8mgr).log =
        [(okEvent3, 5)].map (fun p => Call.finalCall p.1.eid) ++
          [Call.finalCall finFailEvent2.eid] ∧
      (finalizeE c8mgr).state.initialized = true ∧
      (finalizeE c8mgr).state.finalizing = true) :=
  ⟨by decide, by decide, by decide,
    c8_finalize_failure c8mgr [(okEvent3, 5)] [(finFailEvent1, 2)]
      finFailEvent2 3 (by decide) (by decide) (by decide) (by decide)
      (by decide)⟩

/-- C10.  If a finalize() call on an initialized, not-yet-finalizing
manager fails partway (some event's finalize operation raises), the
finalizing flag remains set and the initialized flag is still set; a
second finalize() call on the resulting manager then invokes no event's
finalize operation yet clears the initialized flag, raising nothing —
the events skipped by the failed call are never finalized while the
manager no longer reports itself initialized. -/
theorem c10_failed_then_second_finalize (s : EventManager)
    (hinit : s.initialized = true) (hfin : s.finalizing = false)
    (hfail : (finalizeE s).err.isSome = true) :
    (finalizeE s).state.finalizing = true ∧
      (finalizeE s).state.initialized = true ∧
      (finalizeE (finalizeE s).state).log = [] ∧
      (finalizeE (finalizeE s).state).err = none ∧
      (finalizeE (finalizeE s).state).state.initialized = false := by
  cases hr : (finLoop s.order.reverse).2 with
  | none =>
    exfalso
    have hnone : (finalizeE s).err = none := by
      simp [finalizeE, hinit, hfin, hr]
    rw [hnone] at hfail
    simp at hfail
  | some er =>
    have key : finalizeE s =
        ⟨(finLoop s.order.reverse).1, { s with finalizing := true },
          some er⟩ := by
      simp [finalizeE, hinit, hfin, hr]
    rw [key]
    refine ⟨rfl, hinit, ?_, ?_, ?_⟩ <;> simp [finalizeE, hinit]

def c10list : List (Event × Nat) :=
  [(finFailEvent1, 2), ((⟨2, false, false, false, false⟩ : Event), 3)]

def c10mgr : EventManager :=
  ⟨Timeline.create c10list, true, true, false, false, c10list⟩

theorem c10_witness :
    c10mgr.initialized = true ∧
    c10mgr.finalizing = false ∧
    (finalizeE c10mgr).err.isSome = true ∧
    ((finalizeE c10mgr).state.finalizing = true ∧
      (finalizeE c10mgr).state.initialized = true ∧
      (finalizeE (finalizeE c10mgr).state).log = [] ∧
      (finalizeE (finalizeE c10mgr).state).err = none ∧
      (finalizeE (finalizeE c10mgr).state).state.initialized = false) :=
  ⟨by decide, by decide, by decide,
    c10_failed_then_second_finalize c10mgr (by decide) (by decide)
      (by decide)⟩

theorem dispatchOne_eq (e : Event) (t : Nat) :
    dispatchOne e t =
      ([dCall e t],
        if e.dispatchFails = true then some (Err.dispatchError e.eid)
        else none) := by
  by_cases h : e.hasRun = true
  · simp [dispatchOne, dCall, h]
  · simp only [Bool.not_eq_true] at h
    simp [dispatchOne, dCall, h]

theorem iterUntil_succ_none (fuel : Nat) (tl : Timeline) (stop : Nat)
    (h : tl.nextDue stop = none) :
    iterUntil (fuel + 1) tl stop = ([], tl) := by
  simp [iterUntil, h]

theorem iterUntil_succ_some (fuel : Nat) (tl tl2 : Timeline) (stop : Nat)
    (e : Event) (h : tl.nextDue stop = some (e, tl2)) :
    iterUntil (fuel + 1) tl stop =
      ((e, tl2.time) :: (iterUntil fuel tl2 stop).1,
        (iterUntil fuel tl2 stop).2) := by
  simp [iterUntil, h]

theorem runLoop_ok (fuel : Nat) (tl : Timeline) (stop : Nat)
    (h : ∀ p ∈ (iterUntil fuel tl stop).1, p.1.dispatchFails = false) :
    runLoop fuel tl stop =
      ((iterUntil fuel tl stop).1.map (fun p => dCall p.1 p.2),
        (iterUntil fuel tl stop).2, none) := by
  induction fuel generalizing tl with
  | zero => rfl
  | succ fuel ih =>
    cases hnd : tl.nextDue stop with
    | none => simp [runLoop, hnd, iterUntil_succ_none fuel tl stop hnd]
    | some p =>
      obtain ⟨e, tl2⟩ := p
      rw [iterUntil_succ_some fuel tl tl2 stop e hnd] at h ⊢
      have he : e.dispatchFails = false := (h (e, tl2.time) (by simp)).symm ▸
        (h (e, tl2.time) (by simp))
      have hrest : ∀ q ∈ (iterUntil fuel tl2 stop).1,
          q.1.dispatchFails = false := fun q hq => h q (by simp [hq])
      simp [runLoop, hnd, dispatchOne_eq, he, ih tl2 hrest]

theorem runLoop_fail (fuel : Nat) (tl : Timeline) (stop : Nat)
    (A B : List (Event × Nat)) (e : Event) (t : Nat)
    (hsplit : (iterUntil fuel tl stop).1 = A ++ (e, t) :: B)
    (hA : ∀ p ∈ A, p.1.dispatchFails = false)
    (he : e.dispatchFails = true) :
    (runLoop fuel tl stop).1 =
        A.map (fun p => dCall p.1 p.2) ++ [dCall e t] ∧
      (runLoop fuel tl stop).2.2 = some (Err.dispatchError e.eid) := by
  induction fuel generalizing tl A with
  | zero => simp [iterUntil] at hsplit
  | succ fuel ih =>
    cases hnd : tl.nextDue stop with
    | none =>
      rw [iterUntil_succ_none fuel tl stop hnd] at hsplit
      simp at hsplit
    | some p =>
      obtain ⟨e0, tl2⟩ := p
      rw [iterUntil_succ_some fuel tl tl2 stop e0 hnd] at hsplit
      cases A with
      | nil =>
        simp only [List.nil_append, List.cons.injEq] at hsplit
        obtain ⟨hpair, _⟩ := hsplit
        have h1 : e0 = e := congrArg Prod.fst hpair
        have h2 : tl2.time = t := congrArg Prod.snd hpair
        subst h1
        simp [runLoop, hnd, dispatchOne_eq, he, h2]
      | cons a A2 =>
        simp only [List.cons_append, List.cons.injEq] at hsplit
        obtain ⟨ha, hrest⟩ := hsplit
        have ha0 : e0.dispatchFails = false := by
          have := hA a (by simp)
          rw [← ha] at this
          exact this
        have hA2 : ∀ p ∈ A2, p.1.dispatchFails = false := fun p hp =>
          hA p (by simp [hp])
        have ihr := ih tl2 A2 hrest hA2
        simp [runLoop, hnd, dispatchOne_eq, ha0, ihr.1, ihr.2, ← ha]

/-- C5.  Dispatch of a due occurrence invokes exactly one event
operation: the run operation when the event has that capability,
otherwise the update operation — and over a whole run in which no
dispatch fails, the dispatch trace is exactly one such call per due
occurrence of the timeline's due sequence, each carrying the timeline's
clock value at that occurrence (the fire time the iterator advanced
to). -/
theorem c5_capability_dispatch :
    (∀ (e : Event) (t : Nat),
      (dispatchOne e t).1 =
        [if e.hasRun = true then Call.runCall e.eid t
          else Call.updateCall e.eid t]) ∧
    (∀ (fuel : Nat) (tl : Timeline) (stop : Nat),
      (∀ p ∈ (iterUntil fuel tl stop).1, p.1.dispatchFails = false) →
      (runLoop fuel tl stop).1 =
        (iterUntil fuel tl stop).1.map (fun p =>
          if p.1.hasRun = true then Call.runCall p.1.eid p.2
          else Call.updateCall p.1.eid p.2)) := by
  constructor
  · intro e t
    rw [dispatchOne_eq]
    simp [dCall]
  · intro fuel tl stop h
    have hk : (runLoop fuel tl stop).1 =
        (iterUntil fuel tl stop).1.map (fun p => dCall p.1 p.2) := by
      rw [runLoop_ok fuel tl stop h]
    rw [hk]
    simp [dCall]

def updOnlyEvent : Event := ⟨4, false, false, false, false⟩

def runCapEvent : Event := ⟨5, false, false, false, true⟩

def c5tl : Timeline := Timeline.create [(runCapEvent, 2), (updOnlyEvent, 3)]

theorem c5_witness :
    (dispatchOne updOnlyEvent 7).1 =
      [if updOnlyEvent.hasRun = true then Call.runCall updOnlyEvent.eid 7
        else Call.updateCall updOnlyEvent.eid 7] ∧
    (∀ p ∈ (iterUntil 9 c5tl 6).1, p.1.dispatchFails = false) ∧
    (runLoop 9 c5tl 6).1 =
      (iterUntil 9 c5tl 6).1.map (fun p =>
        if p.1.hasRun = true then Call.runCall p.1.eid p.2
        else Call.updateCall p.1.eid p.2) :=
  ⟨c5_capability_dispatch.1 updOnlyEvent 7, by decide,
    c5_capability_dispatch.2 9 c5tl 6 (by decide)⟩

theorem initializeE_sets_initializing (s : EventManager) :
    (initializeE s).state.initializing = true := by
  by_cases h : s.initializing = true
  · simp [initializeE, h]
  · simp only [Bool.not_eq_true] at h
    simp only [initializeE, h, Bool.false_eq_true, if_false]
    cases hr : (initLoop s.order).2 <;> simp

theorem initLoop_only_init (L : List (Event × Nat)) :
    ∀ c ∈ (initLoop L).1, ∃ i, c = Call.initCall i := by
  induction L with
  | nil => intro c hc; simp [initLoop] at hc
  | cons p rest ih =>
    obtain ⟨e, iv⟩ := p
    intro c hc
    by_cases he : e.initFails = true
    · simp [initLoop, he] at hc
      exact ⟨e.eid, hc⟩
    · simp only [Bool.not_eq_true] at he
      simp only [initLoop, he, Bool.false_eq_true, if_false,
        List.mem_cons] at hc
      cases hc with
      | inl h => exact ⟨e.eid, h⟩
      | inr h => exact ih c h

theorem initializeE_only_init (s : EventManager) :
    ∀ c ∈ (initializeE s).log, ∃ i, c = Call.initCall i := by
  intro c hc
  by_cases h : s.initializing = true
  · simp [initializeE, h] at hc
  · simp only [Bool.not_eq_true] at h
    simp only [initializeE, h, Bool.false_eq_true, if_false] at hc
    cases hr : (initLoop s.order).2 <;> rw [hr] at hc <;>
      exact initLoop_only_init s.order c (by simpa using hc)

/-- C6.  Every run(stop_time) call performs the invocations of an
initialize() call first (its trace extends initialize's trace, and the
initializing flag is set afterwards, so run is safe to call standalone
on an uninitialized manager); and when the running flag is already set
on entry — as when a dispatched event recursively calls run() on the
same manager — the call dispatches no event (its whole trace is
initialize's trace, which contains only initialize invocations), leaves
the state exactly as initialize() left it, and does not advance the
clock. -/
theorem c6_run_reentrancy (fuel : Nat) (s : EventManager) (stop : Nat) :
    (∃ rest, (runE fuel s stop).log = (initializeE s).log ++ rest) ∧
      (runE fuel s stop).state.initializing = true ∧
      (s.running = true →
        (runE fuel s stop).log = (initializeE s).log ∧
        (runE fuel s stop).state = (initializeE s).state ∧
        (runE fuel s stop).state.timeline.time = s.timeline.time ∧
        (∀ c ∈ (runE fuel s stop).log, ∃ i, c = Call.initCall i)) := by
  have hpres := initializeE_preserves s
  cases herr : (initializeE s).err with
  | some er =>
    have key : runE fuel s stop =
        ⟨(initializeE s).log, (initializeE s).state, some er⟩ := by
      simp [runE, herr]
    rw [key]
    refine ⟨⟨[], by simp⟩, initializeE_sets_initializing s, ?_⟩
    intro _
    exact ⟨rfl, rfl, by rw [hpres.1], initializeE_only_init s⟩
  | none =>
    by_cases hrun : (initializeE s).state.running = true
    · have key : runE fuel s stop =
          ⟨(initializeE s).log, (initializeE s).state, none⟩ := by
        simp [runE, herr, hrun]
      rw [key]
      refine ⟨⟨[], by simp⟩, initializeE_sets_initializing s, ?_⟩
      intro _
      exact ⟨rfl, rfl, by rw [hpres.1], initializeE_only_init s⟩
    · have hsr : s.running = false := by
        rw [← hpres.2.1]
        exact Bool.not_eq_true _ |>.mp hrun
      have key : runE fuel s stop =
          (let s2 := { (initializeE s).state with running := true }
           let r := runLoop fuel s2.timeline stop
           match r.2.2 with
           | some e =>
             ⟨(initializeE s).log ++ r.1,
               { s2 with timeline := r.2.1 }, some e⟩
           | none =>
             ⟨(initializeE s).log ++ r.1,
               { s2 with timeline := r.2.1, running := false }, none⟩) := by
        simp only [runE, herr]
        rw [if_neg hrun]
      refine ⟨?_, ?_, ?_⟩
      · rw [key]
        cases hr : (runLoop fuel
            { (initializeE s).state with running := true }.timeline stop).2.2
        · exact ⟨(runLoop fuel
            { (initializeE s).state with running := true }.timeline stop).1,
            by simp [hr]⟩
        · exact ⟨(runLoop fuel
            { (initializeE s).state with running := true }.timeline stop).1,
            by simp [hr]⟩
      · rw [key]
        cases hr : (runLoop fuel
            { (initializeE s).state with running := true }.timeline stop).2.2
        · simp only [hr]
          exact initializeE_sets_initializing s
        · simp only [hr]
          exact initializeE_sets_initializing s
      · intro habs
        rw [habs] at hsr
        exact absurd hsr (by simp)

theorem runE_noop (fuel : Nat) (s : EventManager) (stop : Nat)
    (h1 : s.initializing = true) (h2 : s.running = true) :
    runE fuel s stop = ⟨[], s, none⟩ := by
  simp [runE, initializeE_noop s h1, h2]

def c3ev : Event := ⟨0, false, true, false, true⟩

def c3mgr : EventManager := EventManager.create [(c3ev, 1)]

/-- C3, counterexample to the claim as stated.  A fresh manager with one
recurring event whose run operation fails: during run(1) the event's
dispatch raises a failure that is not a missing capability (the error is
a dispatch error, and the invoked call was the run operation), yet after
the erroring exit the running flag is still true — the source clears it
by a plain assignment after the loop, not by guaranteed cleanup — and a
subsequent run() call is blocked: it dispatches nothing and leaves the
state untouched. -/
theorem c3_counterexample :
    (runE 4 c3mgr 1).err = some (Err.dispatchError 0) ∧
      (runE 4 c3mgr 1).state.running = true ∧
      (runE 4 (runE 4 c3mgr 1).state 2).log = [] ∧
      (runE 4 (runE 4 c3mgr 1).state 2).state = (runE 4 c3mgr 1).state := by
  decide

/-- C3, amended.  For every run(stop_time) call in which some due
event's dispatch raises a failure other than a missing capability, the
failure propagates to the caller and the remaining due events of that
call are not dispatched (the trace ends at the failing dispatch), but
the running flag is NOT cleared on that erroring exit — the source
resets it after the dispatch loop, with no guaranteed cleanup — so every
subsequent run() call on the manager is a no-op: it invokes nothing and
changes nothing. -/
theorem c3_amended_failure_keeps_running (fuel : Nat) (s : EventManager)
    (stop : Nat) (A B : List (Event × Nat)) (e : Event) (t : Nat)
    (hrun : s.running = false) (herr : (initializeE s).err = none)
    (hsplit : (iterUntil fuel s.timeline stop).1 = A ++ (e, t) :: B)
    (hA : ∀ p ∈ A, p.1.dispatchFails = false)
    (he : e.dispatchFails = true) :
    (runE fuel s stop).err = some (Err.dispatchError e.eid) ∧
      (runE fuel s stop).log =
        (initializeE s).log ++
          (A.map (fun p => dCall p.1 p.2) ++ [dCall e t]) ∧
      (runE fuel s stop).state.running = true ∧
      (∀ fuel2 stop2,
        runE fuel2 (runE fuel s stop).state stop2 =
          ⟨[], (runE fuel s stop).state, none⟩) := by
  have hpres := initializeE_preserves s
  have hii := initializeE_sets_initializing s
  have hrunF : ¬ ((initializeE s).state.running = true) := by
    rw [hpres.2.1, hrun]
    simp
  have hfail := runLoop_fail fuel s.timeline stop A B e t hsplit hA he
  have key : runE fuel s stop =
      ⟨(initializeE s).log ++ (runLoop fuel s.timeline stop).1,
        { (initializeE s).state with
            running := true
            timeline := (runLoop fuel s.timeline stop).2.1 },
        some (Err.dispatchError e.eid)⟩ := by
    simp only [runE, herr]
    rw [if_neg hrunF]
    rw [hpres.1, hfail.2]
  rw [key]
  refine ⟨rfl, by rw [hfail.1], rfl, ?_⟩
  intro fuel2 stop2
  exact runE_noop fuel2 _ stop2 hii rfl

theorem c3_amended_witness :
    c3mgr.running = false ∧
    (initializeE c3mgr).err = none ∧
    (iterUntil 4 c3mgr.timeline 1).1 = [] ++ (c3ev, 1) :: [] ∧
    (∀ p ∈ ([] : List (Event × Nat)), p.1.dispatchFails = false) ∧
    c3ev.dispatchFails = true ∧
    ((runE 4 c3mgr 1).err = some (Err.dispatchError c3ev.eid) ∧
      (runE 4 c3mgr 1).log =
        (initializeE c3mgr).log ++
          (([] : List (Event × Nat)).map (fun p => dCall p.1 p.2) ++
            [dCall c3ev 1]) ∧
      (runE 4 c3mgr 1).state.running = true ∧
      (∀ fuel2 stop2,
        runE fuel2 (runE 4 c3mgr 1).state stop2 =
          ⟨[], (runE 4 c3mgr 1).state, none⟩)) :=
  ⟨by decide, by decide, by decide, by decide, by decide,
    c3_amended_failure_keeps_running 4 c3mgr 1 [] [] c3ev 1 (by decide)
      (by decide) (by decide) (by decide) (by decide)⟩

theorem fromConfigLoop_ok (cfg : Config) (names : List String)
    (acc : List (String × String))
    (h : ∀ n ∈ names, (cfg.get n "interval").isSome = true) :
    fromConfigLoop cfg names acc =
      some (acc ++ names.map (fun n => (n, (cfg.get n "interval").getD ""))) := by
  induction names generalizing acc with
  | nil => simp [fromConfigLoop]
  | cons n rest ih =>
    have hn : (cfg.get n "interval").isSome = true := h n (by simp)
    have hrest : ∀ m ∈ rest, (cfg.get m "interval").isSome = true :=
      fun m hm => h m (by simp [hm])
    obtain ⟨v, hv⟩ := Option.isSome_iff_exists.mp hn
    simp [fromConfigLoop, hv, ih (acc ++ [(n, v)]) hrest]

/-- The mapping contract of the (unreachable) _from_config body: the
built registration list contains exactly one (name, interval) pair per
configuration section whose name matches the filter, with the interval
read from that section's interval key, in the sections' insertion order
— and the manager constructor stores the list it is given unchanged. -/
theorem fromConfig_mapping (cfg : Config) (pre : String)
    (h : ∀ n ∈ namesWithPre (cfg.sections.map (fun s => s.1)) pre,
        (cfg.get n "interval").isSome = true) :
    fromConfigEvents cfg pre =
      some ((namesWithPre (cfg.sections.map (fun s => s.1)) pre).map
        (fun n => (n, (cfg.get n "interval").getD ""))) ∧
    (∀ E : List (Event × Nat), (EventManager.create E).order = E) := by
  constructor
  · rw [fromConfigEvents,
      fromConfigLoop_ok cfg
        (namesWithPre (cfg.sections.map (fun s => s.1)) pre) [] h]
    simp
  · intro E
    rfl

def c9cfg : Config :=
  ⟨[("ev_air", [("interval", "2")]),
    ("other", [("interval", "9")]),
    ("ev_sea", [("interval", "3"), ("extra", "x")])]⟩

/-- C9, on the shipped code.  Both named constructors fail on every
call: from_string and from_path raise NameError — ConfigParser is an
unbound name in manager.py — so neither ever returns a manager, here
evaluated at a concrete configuration source and path; whereas the
registration-list mapping the claim describes is exactly what the
unreachable _from_config body computes, shown on the concrete
three-section configuration with filter "ev_". -/
theorem c9_shipped_constructors_raise :
    fromStringShipped "[ev_air]\ninterval = 2" "ev_" =
      Except.error "NameError: ConfigParser" ∧
    fromPathShipped "events.ini" "ev_" =
      Except.error "NameError: ConfigParser" ∧
    fromConfigEvents c9cfg "ev_" =
      some [("ev_air", "2"), ("ev_sea", "3")] :=
  ⟨rfl, rfl, by decide⟩

def c6mgr : EventManager :=
  ⟨Timeline.create [(runCapEvent, 2)], true, true, true, false,
    [(runCapEvent, 2)]⟩

theorem c6_witness :
    c6mgr.running = true ∧
    ((runE 3 c6mgr 5).log = (initializeE c6mgr).log ∧
      (runE 3 c6mgr 5).state = (initializeE c6mgr).state ∧
      (runE 3 c6mgr 5).state.timeline.time = c6mgr.timeline.time ∧
      (∀ c ∈ (runE 3 c6mgr 5).log, ∃ i, c = Call.initCall i)) :=
  ⟨by decide, (c6_run_reentrancy 3 c6mgr 5).2.2 (by decide)⟩
